import Mathlib

/-!
Shallow embedding of the monitor-focus / overlay-state engine of
`src/electron-main.js` (screen-blur-focus), together with theorems that
settle the specification's claims about it.
-/

namespace ScreenBlur

/-- Rectangle of a display in global desktop coordinates
(the `display.bounds` record used throughout `electron-main.js`). -/
structure Bounds where
  x : Int
  y : Int
  width : Int
  height : Int
  deriving DecidableEq, Repr

/-- A connected display as enumerated by `screen.getAllDisplays()`. -/
structure Display where
  bounds : Bounds
  deriving DecidableEq, Repr

/-- The global cursor position returned by `screen.getCursorScreenPoint()`. -/
structure CursorPoint where
  x : Int
  y : Int
  deriving DecidableEq, Repr

/-- The containment test inside the `forEach` of `updateOverlays`
(`electron-main.js` lines 42-46):
`currentCursor.x >= bounds.x && currentCursor.x < bounds.x + bounds.width &&
 currentCursor.y >= bounds.y && currentCursor.y < bounds.y + bounds.height`. -/
def containsPoint (b : Bounds) (p : CursorPoint) : Bool :=
  decide (b.x ≤ p.x) && decide (p.x < b.x + b.width) &&
  decide (b.y ≤ p.y) && decide (p.y < b.y + b.height)

/-- The `displays.forEach((display, index) => ...)` loop of `updateOverlays`
that computes `mouseScreenIndex`: the accumulator is overwritten with the
index of every display whose bounds contain the cursor. -/
def mouseScreenIndexAux (p : CursorPoint) : List Display → Nat → Nat → Nat
  | [], _, acc => acc
  | d :: rest, idx, acc =>
      mouseScreenIndexAux p rest (idx + 1)
        (if containsPoint d.bounds p then idx else acc)

/-- `mouseScreenIndex` as computed at the start of `updateOverlays`:
initialised to `0`, then updated by the `forEach` loop. -/
def resolveMouseScreenIndex (displays : List Display) (p : CursorPoint) : Nat :=
  mouseScreenIndexAux p displays 0 0

/-- Index of the last display in the list whose bounds contain the point,
if any: the characterisation of the `forEach` accumulator. -/
def lastMatchIdx (p : CursorPoint) : List Display → Option Nat
  | [] => none
  | d :: rest =>
      match lastMatchIdx p rest with
      | some k => some (k + 1)
      | none => if containsPoint d.bounds p then some 0 else none

/-- Main-process state of one overlay `BrowserWindow`: its geometry, fixed at
creation, and its shown/hidden visibility.  Electron windows are created
visible (`show` defaults to `true`), and `updateOverlays` only ever calls
`overlay.show()`. -/
structure Overlay where
  bounds : Bounds
  visible : Bool
  deriving DecidableEq, Repr

/-- The IPC message `overlay.webContents.send('set-blur', blurred, blurOpacity)`
pushed to an overlay each tick. -/
structure PushMsg where
  blurred : Bool
  opacity : Rat
  deriving DecidableEq, Repr

/-- `createOverlayWindow(display)`: a new `BrowserWindow` positioned at
`display.bounds` with the display's width and height. -/
def createOverlayWindow (d : Display) : Overlay :=
  { bounds := d.bounds, visible := true }

/-- The startup loop in `app.whenReady`: one overlay window per display,
pushed onto `overlayWindows` in display order. -/
def startupOverlays (displays : List Display) : List Overlay :=
  displays.map createOverlayWindow

/-- The body of the `overlayWindows.forEach` of `updateOverlays` for the
overlay at index `idx`: if `blurEnabled && index !== mouseScreenIndex`,
send `('set-blur', true, blurOpacity)` and call `overlay.show()`;
otherwise send `('set-blur', false, blurOpacity)` and leave the window
untouched. -/
def overlayStep (blurEnabled : Bool) (blurOpacity : Rat)
    (mouseScreenIndex idx : Nat) (o : Overlay) : Overlay × PushMsg :=
  if blurEnabled && (idx != mouseScreenIndex) then
    ({ o with visible := true }, { blurred := true, opacity := blurOpacity })
  else
    (o, { blurred := false, opacity := blurOpacity })

/-- The `overlayWindows.forEach((overlay, index) => ...)` of `updateOverlays`,
started at index `idx`: the updated windows and the messages sent, in order. -/
def updateLoop (blurEnabled : Bool) (blurOpacity : Rat) (mouseScreenIndex : Nat) :
    Nat → List Overlay → List Overlay × List PushMsg
  | _, [] => ([], [])
  | idx, o :: rest =>
      let r := overlayStep blurEnabled blurOpacity mouseScreenIndex idx o
      let rs := updateLoop blurEnabled blurOpacity mouseScreenIndex (idx + 1) rest
      (r.1 :: rs.1, r.2 :: rs.2)

/-- One call of `updateOverlays`: read the displays and cursor, resolve
`mouseScreenIndex`, then walk the overlay windows, returning the updated
windows and the pushed messages. -/
def updateOverlays (displays : List Display) (cursor : CursorPoint)
    (blurEnabled : Bool) (blurOpacity : Rat) (overlayWindows : List Overlay) :
    List Overlay × List PushMsg :=
  updateLoop blurEnabled blurOpacity (resolveMouseScreenIndex displays cursor)
    0 overlayWindows

/-- A sequence of ticks: each tick supplies the displays, cursor and blur
state it observes, and `updateOverlays` transforms the overlay windows. -/
def runTicks : List (List Display × CursorPoint × Bool × Rat) →
    List Overlay → List Overlay
  | [], ows => ows
  | (ds, c, e, op) :: rest, ows =>
      runTicks rest (updateOverlays ds c e op ows).1

/-- Topology-change notifications from the host display subsystem
(the events whose handlers are installed in `app.whenReady`). -/
inductive TopologyEvent
  | displayAdded
  | displayRemoved
  deriving DecidableEq, Repr

/-- Process-lifecycle primitives invoked by the topology-change handlers:
`app.relaunch()` and `app.exit()`. -/
inductive ProcAction
  | relaunch
  | exitApp
  deriving DecidableEq, Repr

/-- Lifecycle state of one process instance: `running` until `app.exit()` is
called, `restarting` (terminated, replacement requested) afterwards. -/
inductive ProcState
  | running
  | restarting
  deriving DecidableEq, Repr

/-- The `screen.on('display-added')` / `screen.on('display-removed')`
handlers: while running, a topology event triggers `app.relaunch()` then
`app.exit()`; a terminated instance runs no further handlers. -/
def handleTopologyEvent (s : ProcState) (_e : TopologyEvent) :
    ProcState × List ProcAction :=
  match s with
  | .running => (.restarting, [.relaunch, .exitApp])
  | .restarting => (.restarting, [])

/-- Deliver a sequence of topology events to one process instance,
collecting every process-lifecycle action it performs. -/
def runEvents : ProcState → List TopologyEvent → ProcState × List ProcAction
  | s, [] => (s, [])
  | s, e :: rest =>
      let r := handleTopologyEvent s e
      let rs := runEvents r.1 rest
      (rs.1, r.2 ++ rs.2)

/-- The process-wide blur state: `blurEnabled` / `blurOpacity` in
`electron-main.js`. -/
structure BlurState where
  enabled : Bool
  opacity : Rat
  deriving DecidableEq, Repr

/-- Initial values: `let blurEnabled = true; let blurOpacity = 0.7;`. -/
def initialBlurState : BlurState :=
  { enabled := true, opacity := 7/10 }

/-- The clickable tray-menu items built in `createTray` that mutate the blur
state: the `Enable Blur` checkbox (carrying its new checked value) and the
four `Blur Intensity` entries. -/
inductive TrayAction
  | toggleEnable (checked : Bool)
  | intensityLight
  | intensityMedium
  | intensityStrong
  | intensityVeryStrong
  deriving DecidableEq, Repr

/-- The click handlers of `createTray`: the checkbox sets `blurEnabled` to the
item's checked value; the intensity entries set `blurOpacity` to 0.3, 0.5,
0.7 or 0.9. -/
def applyTrayAction : TrayAction → BlurState → BlurState
  | .toggleEnable c, s => { s with enabled := c }
  | .intensityLight, s => { s with opacity := 3/10 }
  | .intensityMedium, s => { s with opacity := 5/10 }
  | .intensityStrong, s => { s with opacity := 7/10 }
  | .intensityVeryStrong, s => { s with opacity := 9/10 }

/-- The blur state reached from startup after a sequence of tray-menu
clicks. -/
def reachState (acts : List TrayAction) : BlurState :=
  acts.foldl (fun s a => applyTrayAction a s) initialBlurState

/-- The four opacity values offered by the `Blur Intensity` submenu. -/
def opacityMenuValues : List Rat := [3/10, 5/10, 7/10, 9/10]

/-- Two monitors with identical bounds: a malformed, fully overlapping
topology used as a concrete test topology. -/
def twinDisplays : List Display :=
  [Display.mk (Bounds.mk 0 0 10 10), Display.mk (Bounds.mk 0 0 10 10)]

/-- Two disjoint monitors side by side: a well-formed concrete test
topology. -/
def sideBySideDisplays : List Display :=
  [Display.mk (Bounds.mk 0 0 10 10), Display.mk (Bounds.mk 20 0 10 10)]

lemma mouseScreenIndexAux_eq (p : CursorPoint) :
    ∀ (ds : List Display) (idx acc : Nat),
      mouseScreenIndexAux p ds idx acc =
        (match lastMatchIdx p ds with
         | some k => idx + k
         | none => acc) := by
  intro ds
  induction ds with
  | nil => intro idx acc; rfl
  | cons d rest ih =>
      intro idx acc
      show mouseScreenIndexAux p rest (idx + 1)
          (if containsPoint d.bounds p then idx else acc) = _
      rw [ih]
      cases hrest : lastMatchIdx p rest with
      | some k =>
          have hcons : lastMatchIdx p (d :: rest) = some (k + 1) := by
            simp [lastMatchIdx, hrest]
          rw [hcons]
          show idx + 1 + k = idx + (k + 1)
          omega
      | none =>
          have hcons : lastMatchIdx p (d :: rest) =
              (if containsPoint d.bounds p then some 0 else none) := by
            simp [lastMatchIdx, hrest]
          rw [hcons]
          by_cases hc : containsPoint d.bounds p = true
          · simp only [if_pos hc]
            show idx = idx + 0
            omega
          · simp only [if_neg hc]

lemma lastMatchIdx_none_of (p : CursorPoint) :
    ∀ ds : List Display,
      (∀ d ∈ ds, containsPoint d.bounds p = false) →
      lastMatchIdx p ds = none := by
  intro ds
  induction ds with
  | nil => intro _; rfl
  | cons d rest ih =>
      intro h
      have hrest : lastMatchIdx p rest = none :=
        ih (fun e he => h e (List.mem_cons_of_mem d he))
      have hd : containsPoint d.bounds p = false := h d (List.mem_cons_self d rest)
      simp [lastMatchIdx, hrest, hd]

lemma lastMatchIdx_none_no_match (p : CursorPoint) :
    ∀ ds : List Display,
      lastMatchIdx p ds = none →
      ∀ (j : Nat) (e : Display), ds[j]? = some e → containsPoint e.bounds p = false := by
  intro ds
  induction ds with
  | nil => intro _ j e hj; simp at hj
  | cons d rest ih =>
      intro h j e hj
      have hsplit : lastMatchIdx p (d :: rest) =
          (match lastMatchIdx p rest with
           | some k => some (k + 1)
           | none => if containsPoint d.bounds p then some 0 else none) := rfl
      cases hrest : lastMatchIdx p rest with
      | some k => rw [hsplit, hrest] at h; simp at h
      | none =>
          rw [hsplit, hrest] at h
          by_cases hc : containsPoint d.bounds p = true
          · simp [hc] at h
          · cases j with
            | zero =>
                simp at hj
                subst hj
                exact Bool.eq_false_iff.mpr hc
            | succ j' =>
                simp only [List.getElem?_cons_succ] at hj
                exact ih hrest j' e hj

lemma lastMatchIdx_ge (p : CursorPoint) :
    ∀ (ds : List Display) (k : Nat),
      lastMatchIdx p ds = some k →
      ∀ (j : Nat) (e : Display), ds[j]? = some e →
        containsPoint e.bounds p = true → j ≤ k := by
  intro ds
  induction ds with
  | nil => intro k hk; simp [lastMatchIdx] at hk
  | cons d rest ih =>
      intro k hk j e hj hc
      have hsplit : lastMatchIdx p (d :: rest) =
          (match lastMatchIdx p rest with
           | some k => some (k + 1)
           | none => if containsPoint d.bounds p then some 0 else none) := rfl
      cases hrest : lastMatchIdx p rest with
      | some k' =>
          rw [hsplit, hrest] at hk
          have hkk : k = k' + 1 := by
            simpa using hk.symm
          subst hkk
          cases j with
          | zero => omega
          | succ j' =>
              simp only [List.getElem?_cons_succ] at hj
              have := ih k' hrest j' e hj hc
              omega
      | none =>
          rw [hsplit, hrest] at hk
          cases j with
          | zero => omega
          | succ j' =>
              simp only [List.getElem?_cons_succ] at hj
              have := lastMatchIdx_none_no_match p rest hrest j' e hj
              rw [this] at hc
              exact absurd hc (by simp)

lemma lastMatchIdx_matches (p : CursorPoint) :
    ∀ (ds : List Display) (k : Nat),
      lastMatchIdx p ds = some k →
      ∃ e : Display, ds[k]? = some e ∧ containsPoint e.bounds p = true := by
  intro ds
  induction ds with
  | nil => intro k hk; simp [lastMatchIdx] at hk
  | cons d rest ih =>
      intro k hk
      have hsplit : lastMatchIdx p (d :: rest) =
          (match lastMatchIdx p rest with
           | some k => some (k + 1)
           | none => if containsPoint d.bounds p then some 0 else none) := rfl
      cases hrest : lastMatchIdx p rest with
      | some k' =>
          rw [hsplit, hrest] at hk
          have hkk : k = k' + 1 := by simpa using hk.symm
          subst hkk
          obtain ⟨e, he, hce⟩ := ih k' hrest
          exact ⟨e, by simpa [List.getElem?_cons_succ] using he, hce⟩
      | none =>
          rw [hsplit, hrest] at hk
          by_cases hc : containsPoint d.bounds p = true
          · simp only [hc, if_true] at hk
            have hk0 : k = 0 := by simpa using hk.symm
            subst hk0
            exact ⟨d, by simp, hc⟩
          · simp [hc] at hk

lemma resolve_eq (displays : List Display) (p : CursorPoint) :
    resolveMouseScreenIndex displays p =
      (match lastMatchIdx p displays with
       | some k => k
       | none => 0) := by
  show mouseScreenIndexAux p displays 0 0 = _
  rw [mouseScreenIndexAux_eq]
  cases lastMatchIdx p displays with
  | some k => simp
  | none => rfl


lemma overlayStep_msg (e : Bool) (op : Rat) (m idx : Nat) (o : Overlay) :
    (overlayStep e op m idx o).2 =
      { blurred := e && (idx != m), opacity := op } := by
  by_cases h : (e && (idx != m)) = true
  · simp [overlayStep, h]
  · simp [overlayStep, h, Bool.eq_false_iff.mpr h]

lemma overlayStep_win (e : Bool) (op : Rat) (m idx : Nat) (o : Overlay) :
    (overlayStep e op m idx o).1 =
      { bounds := o.bounds, visible := o.visible || (e && (idx != m)) } := by
  by_cases h : (e && (idx != m)) = true
  · simp [overlayStep, h]
  · simp [overlayStep, h, Bool.eq_false_iff.mpr h]

lemma updateLoop_msgs (e : Bool) (op : Rat) (m : Nat) :
    ∀ (ows : List Overlay) (idx i : Nat),
      ((updateLoop e op m idx ows).2)[i]? =
        (ows[i]?).map
          (fun _ => PushMsg.mk (e && ((idx + i) != m)) op) := by
  intro ows
  induction ows with
  | nil => intro idx i; simp [updateLoop]
  | cons o rest ih =>
      intro idx i
      have hstep : (updateLoop e op m idx (o :: rest)).2 =
          (overlayStep e op m idx o).2 ::
            (updateLoop e op m (idx + 1) rest).2 := rfl
      cases i with
      | zero =>
          rw [hstep, List.getElem?_cons_zero, overlayStep_msg]
          simp
      | succ i' =>
          rw [hstep, List.getElem?_cons_succ, ih]
          have harith : idx + 1 + i' = idx + (i' + 1) := by omega
          rw [harith]
          simp

lemma updateLoop_wins (e : Bool) (op : Rat) (m : Nat) :
    ∀ (ows : List Overlay) (idx i : Nat),
      ((updateLoop e op m idx ows).1)[i]? =
        (ows[i]?).map
          (fun o => Overlay.mk o.bounds (o.visible || (e && ((idx + i) != m)))) := by
  intro ows
  induction ows with
  | nil => intro idx i; simp [updateLoop]
  | cons o rest ih =>
      intro idx i
      have hstep : (updateLoop e op m idx (o :: rest)).1 =
          (overlayStep e op m idx o).1 ::
            (updateLoop e op m (idx + 1) rest).1 := rfl
      cases i with
      | zero =>
          rw [hstep, List.getElem?_cons_zero, overlayStep_win]
          simp
      | succ i' =>
          rw [hstep, List.getElem?_cons_succ, ih]
          have harith : idx + 1 + i' = idx + (i' + 1) := by omega
          rw [harith]
          simp

lemma updateLoop_msgs_length (e : Bool) (op : Rat) (m : Nat) :
    ∀ (ows : List Overlay) (idx : Nat),
      ((updateLoop e op m idx ows).2).length = ows.length := by
  intro ows
  induction ows with
  | nil => intro idx; rfl
  | cons o rest ih =>
      intro idx
      have hstep : (updateLoop e op m idx (o :: rest)).2 =
          (overlayStep e op m idx o).2 ::
            (updateLoop e op m (idx + 1) rest).2 := rfl
      rw [hstep, List.length_cons, ih]
      rfl

lemma updateLoop_wins_length (e : Bool) (op : Rat) (m : Nat) :
    ∀ (ows : List Overlay) (idx : Nat),
      ((updateLoop e op m idx ows).1).length = ows.length := by
  intro ows
  induction ows with
  | nil => intro idx; rfl
  | cons o rest ih =>
      intro idx
      have hstep : (updateLoop e op m idx (o :: rest)).1 =
          (overlayStep e op m idx o).1 ::
            (updateLoop e op m (idx + 1) rest).1 := rfl
      rw [hstep, List.length_cons, ih]
      rfl

lemma runEvents_restarting :
    ∀ es : List TopologyEvent,
      runEvents ProcState.restarting es = (ProcState.restarting, []) := by
  intro es
  induction es with
  | nil => rfl
  | cons e rest ih =>
      show (let r := handleTopologyEvent ProcState.restarting e
            let rs := runEvents r.1 rest
            (rs.1, r.2 ++ rs.2)) = _
      simp only [handleTopologyEvent, ih]
      rfl

lemma reach_mem :
    ∀ (acts : List TrayAction) (s : BlurState),
      s.opacity ∈ opacityMenuValues →
      (acts.foldl (fun s a => applyTrayAction a s) s).opacity ∈
        opacityMenuValues := by
  intro acts
  induction acts with
  | nil => intro s hs; exact hs
  | cons a rest ih =>
      intro s hs
      show (rest.foldl (fun s a => applyTrayAction a s)
        (applyTrayAction a s)).opacity ∈ opacityMenuValues
      apply ih
      cases a with
      | toggleEnable c => exact hs
      | intensityLight => simp [applyTrayAction, opacityMenuValues]
      | intensityMedium => simp [applyTrayAction, opacityMenuValues]
      | intensityStrong => simp [applyTrayAction, opacityMenuValues]
      | intensityVeryStrong => simp [applyTrayAction, opacityMenuValues]

lemma opacityMenuValues_range :
    ∀ q ∈ opacityMenuValues, 0 ≤ q ∧ q ≤ 1 := by
  intro q hq
  simp only [opacityMenuValues, List.mem_cons, List.not_mem_nil, or_false] at hq
  rcases hq with h | h | h | h <;> subst h <;> constructor <;> norm_num

/-- Claim C1 (counterexample): two monitors with identical bounds
`(0,0,10,10)` both contain the cursor point `(5,5)`, yet the focus
resolution of `updateOverlays` returns index 1, not the lowest matching
index 0. -/
theorem focus_lowest_index_counterexample :
    containsPoint (Bounds.mk 0 0 10 10) (CursorPoint.mk 5 5) = true ∧
    resolveMouseScreenIndex
      [Display.mk (Bounds.mk 0 0 10 10), Display.mk (Bounds.mk 0 0 10 10)]
      (CursorPoint.mk 5 5) = 1 := by
  decide

/-- Claim C1 (amended): for every ordered list of monitor bounds and cursor
point, whenever some monitor contains the point the focus resolution of
`updateOverlays` returns a matching index that is greater than or equal to
every matching index — the highest matching index, last-match-wins — and it
always returns a plain index, never an error. -/
theorem focus_last_match_wins (ds : List Display) (p : CursorPoint)
    (j : Nat) (e : Display) (hj : ds[j]? = some e)
    (hc : containsPoint e.bounds p = true) :
    j ≤ resolveMouseScreenIndex ds p ∧
    ∃ d : Display, ds[resolveMouseScreenIndex ds p]? = some d ∧
      containsPoint d.bounds p = true := by
  cases hlm : lastMatchIdx p ds with
  | none =>
      have := lastMatchIdx_none_no_match p ds hlm j e hj
      rw [this] at hc
      exact absurd hc (by simp)
  | some k =>
      have hres : resolveMouseScreenIndex ds p = k := by
        rw [resolve_eq, hlm]
      constructor
      · rw [hres]
        exact lastMatchIdx_ge p ds k hlm j e hj hc
      · rw [hres]
        exact lastMatchIdx_matches p ds k hlm

/-- Claim C1 (witness): concrete instance of the amended claim on two
overlapping monitors. -/
theorem focus_last_match_wins_witness :
    0 ≤ resolveMouseScreenIndex twinDisplays (CursorPoint.mk 5 5) ∧
    ∃ d : Display,
      twinDisplays[resolveMouseScreenIndex twinDisplays (CursorPoint.mk 5 5)]? =
        some d ∧
      containsPoint d.bounds (CursorPoint.mk 5 5) = true :=
  focus_last_match_wins twinDisplays (CursorPoint.mk 5 5) 0
    (Display.mk (Bounds.mk 0 0 10 10)) (by decide) (by decide)

/-- Claim C5: for every topology and every cursor point contained in no
monitor's bounds, the focus resolution of `updateOverlays` returns index 0 —
the index is always defined and no lookup error can occur. -/
theorem focus_outside_defaults_zero (ds : List Display) (p : CursorPoint)
    (h : ∀ d ∈ ds, containsPoint d.bounds p = false) :
    resolveMouseScreenIndex ds p = 0 := by
  rw [resolve_eq, lastMatchIdx_none_of p ds h]

/-- Claim C5 (witness): a cursor point outside the single monitor resolves
to index 0. -/
theorem focus_outside_defaults_zero_witness :
    resolveMouseScreenIndex [Display.mk (Bounds.mk 0 0 10 10)]
      (CursorPoint.mk 20 20) = 0 :=
  focus_outside_defaults_zero [Display.mk (Bounds.mk 0 0 10 10)]
    (CursorPoint.mk 20 20) (by decide)

/-- Claim C6: containment is half-open on both axes
(`x ∈ [bx, bx+bw)` and `y ∈ [by, by+bh)`), and when the cursor point is
contained in exactly one monitor's bounds the focus resolution of
`updateOverlays` returns that monitor's index. -/
theorem focus_unique_containment :
    (∀ (b : Bounds) (p : CursorPoint),
      containsPoint b p = true ↔
        (b.x ≤ p.x ∧ p.x < b.x + b.width ∧
         b.y ≤ p.y ∧ p.y < b.y + b.height)) ∧
    (∀ (ds : List Display) (p : CursorPoint) (k : Nat) (r : Display),
      ds[k]? = some r → containsPoint r.bounds p = true →
      (∀ (j : Nat) (e : Display), ds[j]? = some e →
        containsPoint e.bounds p = true → j = k) →
      resolveMouseScreenIndex ds p = k) := by
  constructor
  · intro b p
    simp [containsPoint, and_assoc]
  · intro ds p k r hk hc huniq
    cases hlm : lastMatchIdx p ds with
    | none =>
        have := lastMatchIdx_none_no_match p ds hlm k r hk
        rw [this] at hc
        exact absurd hc (by simp)
    | some k' =>
        obtain ⟨e, he, hce⟩ := lastMatchIdx_matches p ds k' hlm
        have : k' = k := huniq k' e he hce
        rw [resolve_eq, hlm, this]

/-- Claim C6 (witness): two disjoint monitors side by side; a point inside
only the second resolves to index 1. -/
theorem focus_unique_containment_witness :
    resolveMouseScreenIndex sideBySideDisplays (CursorPoint.mk 25 5) = 1 :=
  focus_unique_containment.2 sideBySideDisplays
    (CursorPoint.mk 25 5) 1 (Display.mk (Bounds.mk 20 0 10 10))
    (by decide) (by decide)
    (by
      intro j e hj hc
      match j with
      | 0 =>
          have he : Display.mk (Bounds.mk 0 0 10 10) = e := by
            simpa [sideBySideDisplays] using hj
          rw [← he] at hc
          exact absurd hc (by decide)
      | 1 => rfl
      | (n + 2) => simp [sideBySideDisplays] at hj)

/-- Claim C2: on every tick, the message pushed to the overlay at index `i`
has `blurred = (enabled && i != focusedIndex)`; with `enabled = false` every
overlay is pushed `blurred = false` regardless of focus. -/
theorem broadcast_blurred_eq (ds : List Display) (c : CursorPoint) (e : Bool)
    (op : Rat) (ows : List Overlay) (i : Nat) :
    ((updateOverlays ds c e op ows).2)[i]? =
      (ows[i]?).map
        (fun _ => PushMsg.mk (e && (i != resolveMouseScreenIndex ds c)) op) ∧
    ((updateOverlays ds c false op ows).2)[i]? =
      (ows[i]?).map (fun _ => PushMsg.mk false op) := by
  constructor
  · show ((updateLoop e op (resolveMouseScreenIndex ds c) 0 ows).2)[i]? = _
    rw [updateLoop_msgs]
    simp
  · show ((updateLoop false op (resolveMouseScreenIndex ds c) 0 ows).2)[i]? = _
    rw [updateLoop_msgs]
    simp

/-- Claim C3: after the startup creation loop runs on topology `T`, there is
exactly one overlay window per display (`|T|` of them) and the window at
index `i` has the bounds of display `i`. -/
theorem startup_reconcile_geometry (T : List Display) :
    (startupOverlays T).length = T.length ∧
    ∀ i : Nat, ((startupOverlays T)[i]?).map Overlay.bounds =
      (T[i]?).map Display.bounds := by
  constructor
  · simp [startupOverlays]
  · intro i
    simp only [startupOverlays, List.getElem?_map, Option.map_map]
    cases T[i]? with
    | none => rfl
    | some d => rfl

/-- Claim C4: a topology-change event received while running triggers exactly
one `relaunch` followed by one `exit`, with no further lifecycle actions for
any later events, and a terminated (restarting) instance never returns to
running. -/
theorem topology_change_single_restart :
    (∀ (e : TopologyEvent) (es : List TopologyEvent),
      runEvents ProcState.running (e :: es) =
        (ProcState.restarting, [ProcAction.relaunch, ProcAction.exitApp])) ∧
    (∀ es : List TopologyEvent,
      (runEvents ProcState.restarting es).1 = ProcState.restarting) := by
  constructor
  · intro e es
    show (let r := handleTopologyEvent ProcState.running e
          let rs := runEvents r.1 es
          (rs.1, r.2 ++ rs.2)) = _
    simp only [handleTopologyEvent, runEvents_restarting]
    rfl
  · intro es
    rw [runEvents_restarting]

/-- Claim C7: on every tick, every current overlay window receives a push
(the message list has one entry per overlay) and every push carries the
current opacity value, including pushes with `blurred = false`. -/
theorem broadcast_opacity_unconditional (ds : List Display) (c : CursorPoint)
    (e : Bool) (op : Rat) (ows : List Overlay) :
    ((updateOverlays ds c e op ows).2).length = ows.length ∧
    ∀ i : Nat, (((updateOverlays ds c e op ows).2)[i]?).map PushMsg.opacity =
      (ows[i]?).map (fun _ => op) := by
  constructor
  · exact updateLoop_msgs_length e op (resolveMouseScreenIndex ds c) ows 0
  · intro i
    show (((updateLoop e op (resolveMouseScreenIndex ds c) 0 ows).2)[i]?).map
        PushMsg.opacity = _
    rw [updateLoop_msgs]
    cases ows[i]? with
    | none => rfl
    | some o => rfl

/-- Claim C8: the opacity component of the blur state starts in `[0,1]` and
stays in `[0,1]` under every sequence of tray-menu actions; the enable
checkbox never changes opacity, and the intensity entries never change the
enabled flag. -/
theorem blur_state_opacity_invariant :
    (∀ acts : List TrayAction,
      0 ≤ (reachState acts).opacity ∧ (reachState acts).opacity ≤ 1) ∧
    (∀ (c : Bool) (s : BlurState),
      (applyTrayAction (TrayAction.toggleEnable c) s).opacity = s.opacity) ∧
    (∀ s : BlurState,
      (applyTrayAction TrayAction.intensityLight s).enabled = s.enabled ∧
      (applyTrayAction TrayAction.intensityMedium s).enabled = s.enabled ∧
      (applyTrayAction TrayAction.intensityStrong s).enabled = s.enabled ∧
      (applyTrayAction TrayAction.intensityVeryStrong s).enabled = s.enabled) := by
  refine ⟨?_, ?_, ?_⟩
  · intro acts
    have hmem : (reachState acts).opacity ∈ opacityMenuValues :=
      reach_mem acts initialBlurState
        (by simp [initialBlurState, opacityMenuValues])
    exact opacityMenuValues_range _ hmem
  · intro c s
    rfl
  · intro s
    exact ⟨rfl, rfl, rfl, rfl⟩

lemma updateOverlays_win_eq (ds : List Display) (c : CursorPoint) (e : Bool)
    (op : Rat) (ows : List Overlay) (i : Nat) :
    ((updateOverlays ds c e op ows).1)[i]? =
      (ows[i]?).map
        (fun o => Overlay.mk o.bounds
          (o.visible || (e && (i != resolveMouseScreenIndex ds c)))) := by
  show ((updateLoop e op (resolveMouseScreenIndex ds c) 0 ows).1)[i]? = _
  rw [updateLoop_wins]
  simp

lemma runTicks_visible :
    ∀ (ticks : List (List Display × CursorPoint × Bool × Rat))
      (ows : List Overlay) (j : Nat) (o : Overlay),
      ows[j]? = some o → o.visible = true →
      ∃ o2 : Overlay, (runTicks ticks ows)[j]? = some o2 ∧ o2.visible = true := by
  intro ticks
  induction ticks with
  | nil => intro ows j o hj hv; exact ⟨o, hj, hv⟩
  | cons t rest ih =>
      intro ows j o hj hv
      obtain ⟨ds, c, e, op⟩ := t
      have h1 : ((updateOverlays ds c e op ows).1)[j]? =
          some (Overlay.mk o.bounds
            (o.visible || (e && (j != resolveMouseScreenIndex ds c)))) := by
        rw [updateOverlays_win_eq, hj]
        rfl
      have h2 : (Overlay.mk o.bounds
          (o.visible || (e && (j != resolveMouseScreenIndex ds c)))).visible =
            true := by
        simp [hv]
      exact ih ((updateOverlays ds c e op ows).1) j _ h1 h2

/-- Claim C9: a tick leaves every overlay window's bounds unchanged and only
ever turns visibility on — the new visibility is the old one OR-ed with the
blurred flag pushed to that window, so a window pushed `blurred = false` is
untouched and a window once shown stays shown across any sequence of
ticks. -/
theorem visibility_monotone :
    (∀ (ds : List Display) (c : CursorPoint) (e : Bool) (op : Rat)
      (ows : List Overlay) (i : Nat),
      ((updateOverlays ds c e op ows).1)[i]? =
        (ows[i]?).map
          (fun o => Overlay.mk o.bounds
            (o.visible || (e && (i != resolveMouseScreenIndex ds c))))) ∧
    (∀ (ticks : List (List Display × CursorPoint × Bool × Rat))
      (ows : List Overlay) (j : Nat) (o : Overlay),
      ows[j]? = some o → o.visible = true →
      ∃ o2 : Overlay, (runTicks ticks ows)[j]? = some o2 ∧ o2.visible = true) :=
  ⟨updateOverlays_win_eq, runTicks_visible⟩

/-- Claim C9 (witness): an overlay shown before a tick is still shown after
it. -/
theorem visibility_monotone_witness :
    ∃ o2 : Overlay,
      (runTicks [(sideBySideDisplays, CursorPoint.mk 5 5, true, 7/10)]
        [Overlay.mk (Bounds.mk 0 0 10 10) true])[0]? = some o2 ∧
      o2.visible = true :=
  visibility_monotone.2
    [(sideBySideDisplays, CursorPoint.mk 5 5, true, 7/10)]
    [Overlay.mk (Bounds.mk 0 0 10 10) true] 0
    (Overlay.mk (Bounds.mk 0 0 10 10) true) rfl rfl

/-- Claim C10: at process start the blur state is enabled with opacity 0.7,
and the opacity after any sequence of tray-menu actions is one of the four
menu values 0.3, 0.5, 0.7, 0.9. -/
theorem tray_opacity_values :
    initialBlurState.enabled = true ∧
    initialBlurState.opacity = 7/10 ∧
    ∀ acts : List TrayAction,
      (reachState acts).opacity ∈ opacityMenuValues :=
  ⟨rfl, rfl, fun acts =>
    reach_mem acts initialBlurState
      (by simp [initialBlurState, opacityMenuValues])⟩

end ScreenBlur
